import Mathlib

/-!
Verification of the blog-publishing pipeline in `docs/publish.py`.

Documents and text are modelled as `List Char` (Python `str` is a sequence of
unicode code points, exactly a `List Char`).  Python string methods used by
the script are embedded as executable Lean functions; `re`-based transforms
(`re.sub`, `re.finditer`) are embedded as direct scanners implementing the
concrete patterns appearing in the source.  ASCII-range behaviour is modelled
for case mapping (`str.lower`) and the `\w` regex class; the CJK range
`一-鿿` is modelled exactly as in the source.
-/

/-- Python `html.escape(s)` (quote=True): replaces `&`, `<`, `>`, `"`, `'`
by their entities.  The successive `str.replace` calls of the library
function are equivalent to this single character-wise pass because no
replacement output re-triggers a later replacement on its own output. -/
def escapeHtml : List Char → List Char
  | [] => []
  | c :: rest =>
    (if c = '&' then "&amp;".data
     else if c = '<' then "&lt;".data
     else if c = '>' then "&gt;".data
     else if c = '"' then "&quot;".data
     else if c = '\'' then "&#x27;".data
     else [c]) ++ escapeHtml rest

/-- Python `pat in s` for strings: some suffix of `s` starts with `pat`. -/
def containsSub (pat : List Char) : List Char → Bool
  | [] => pat.isPrefixOf []
  | c :: rest => pat.isPrefixOf (c :: rest) || containsSub pat rest

/-- Python `s.replace(old, new, 1)` for a non-empty `old`: replace the
leftmost occurrence of `old` (scanning position by position). -/
def replaceFirst (old new : List Char) : List Char → List Char
  | [] => []
  | c :: rest =>
    if old.isPrefixOf (c :: rest) then new ++ (c :: rest).drop old.length
    else c :: replaceFirst old new rest

/-- Number of (possibly overlapping) occurrences of `pat` in `s`. -/
def countOccur (pat : List Char) : List Char → Nat
  | [] => 0
  | c :: rest => (if pat.isPrefixOf (c :: rest) then 1 else 0) + countOccur pat rest

/-- Python `str.lower` restricted to its ASCII action (the titles and
headings exercised contain ASCII and CJK, and CJK has no case). -/
def pyLower (c : Char) : Char :=
  if 65 ≤ c.toNat ∧ c.toNat ≤ 90 then Char.ofNat (c.toNat + 32) else c

/-- The regex class `\w` over the ASCII range: letters, digits, underscore. -/
def isWordChar (c : Char) : Bool := c.isAlphanum || c = '_'

/-- The CJK ideograph range `一-鿿` of the source's regexes. -/
def isCJKChar (c : Char) : Bool := 0x4e00 ≤ c.toNat && c.toNat ≤ 0x9fff

/-- A character NOT matched by `[^\w一-鿿]`, i.e. one that survives
the slug substitution. -/
def keepChar (c : Char) : Bool := isWordChar c || isCJKChar c

/-- Scanner for `re.sub(r'[^\w一-鿿]+', '-', s)`: every maximal run
of non-kept characters becomes a single hyphen.  The flag records whether
the scanner is inside such a run. -/
def collapseAux : Bool → List Char → List Char
  | _, [] => []
  | inRun, c :: rest =>
    if keepChar c then c :: collapseAux false rest
    else if inRun then collapseAux true rest
    else '-' :: collapseAux true rest

/-- `re.sub(r'[^\w一-鿿]+', '-', s)`. -/
def collapseNonWord (s : List Char) : List Char := collapseAux false s

/-- Python `s.strip('-')`: remove leading and trailing hyphens. -/
def stripHyphens (s : List Char) : List Char :=
  (((s.dropWhile (fun c => c == '-')).reverse.dropWhile (fun c => c == '-'))).reverse

/-- `slugify` from publish.py:
`re.sub(r'[^\w一-鿿]+', '-', title.lower()).strip('-')[:60]`. -/
def slugify (title : List Char) : List Char :=
  (stripHyphens (collapseNonWord (title.map pyLower))).take 60

/-- Python `s.strip()`: remove leading and trailing whitespace. -/
def pyStrip (s : List Char) : List Char :=
  ((s.dropWhile Char.isWhitespace).reverse.dropWhile Char.isWhitespace).reverse

/-- Python `s.split("\n")`. -/
def splitNl : List Char → List (List Char)
  | [] => [[]]
  | '\n' :: rest =>
    [] :: splitNl rest
  | c :: rest =>
    match splitNl rest with
    | [] => [[c]]
    | chunk :: chunks => (c :: chunk) :: chunks

/-- Python `s.split("\n\n")` (non-overlapping, scanning left to right). -/
def splitPara : List Char → List (List Char)
  | [] => [[]]
  | '\n' :: '\n' :: rest =>
    [] :: splitPara rest
  | c :: rest =>
    match splitPara rest with
    | [] => [[c]]
    | chunk :: chunks => (c :: chunk) :: chunks

/-- The line list `md.strip().split("\n")` that `parse_article` scans. -/
def linesOf (md : List Char) : List (List Char) := splitNl (pyStrip md)

/-- The title-search loop of `parse_article`: the first line starting with
`"# "`, together with its index. -/
def findFirstHeading : List (List Char) → Option (Nat × List Char)
  | [] => none
  | l :: rest =>
    if "# ".data.isPrefixOf l then some (0, l)
    else (findFirstHeading rest).map (fun p => (p.1 + 1, p.2))

/-- `re.sub(r'^(摘要[：:]|Abstract[：:])\s*', '', first, flags=re.IGNORECASE)`:
strip one leading abstract label (with full- or half-width colon) and the
whitespace after it, if present. -/
def stripAbstractLabel (s : List Char) : List Char :=
  if "摘要：".data.isPrefixOf s ∨ "摘要:".data.isPrefixOf s then
    (s.drop 3).dropWhile Char.isWhitespace
  else if (s.take 8).map pyLower = "abstract".data ∧
          ((s.drop 8).head? = some ':' ∨ (s.drop 8).head? = some '：') then
    (s.drop 9).dropWhile Char.isWhitespace
  else s

/-- The structured article produced by `parse_article`
(`{title, abstract, body_md}`). -/
structure Article where
  title : List Char
  abstract : List Char
  body_md : List Char
deriving DecidableEq, Repr

/-- The abstract/body part of `parse_article`, applied to the lines after
the title line (`lines[title_idx + 1:]`). -/
def buildArticle (title : List Char) (restLines : List (List Char)) : Article :=
  let remaining := pyStrip (List.intercalate "\n".data restLines)
  let paragraphs := splitPara remaining
  let first := pyStrip paragraphs.headI
  if first ≠ [] ∧ ¬("#".data.isPrefixOf first) ∧ ¬("```".data.isPrefixOf first) then
    { title := title
      abstract := stripAbstractLabel first
      body_md := List.intercalate "\n\n".data (paragraphs.drop 1) }
  else
    { title := title
      abstract := []
      body_md := List.intercalate "\n\n".data paragraphs }

/-- `parse_article` from publish.py.  When no line starts with `"# "` the
loop leaves `title = ""` and `title_idx = 0`, so the remainder is computed
from `lines[1:]`. -/
def parse_article (md : List Char) : Article :=
  match findFirstHeading (linesOf md) with
  | some (i, line) => buildArticle (pyStrip (line.drop 2)) ((linesOf md).drop (i + 1))
  | none => buildArticle [] ((linesOf md).drop 1)

/-- Position of the first `>` in `s`: `some (k, rest)` means `s` has `k`
non-`>` characters, then `>`, then `rest`. -/
def gtSplit : List Char → Option (Nat × List Char)
  | [] => none
  | '>' :: r => some (0, r)
  | _ :: r => (gtSplit r).map (fun p => (p.1 + 1, p.2))

/-- Scanner for `re.sub(r'<[^>]+>', '', s)`, fuelled so that recursion is
structural (one unit of fuel per character consumed; `fuel = s.length`
always suffices, see `stripTagsF_fuel`).  At a `<` the regex matches up to
the first later `>` provided at least one character lies between; `<>` and
a `<` with no later `>` are not matched and stay. -/
def stripTagsF : Nat → List Char → List Char
  | 0, s => s
  | _, [] => []
  | fuel + 1, c :: rest =>
    if c = '<' then
      match gtSplit rest with
      | some (k, aft) => if 1 ≤ k then stripTagsF fuel aft else c :: stripTagsF fuel rest
      | none => c :: stripTagsF fuel rest
    else c :: stripTagsF fuel rest

/-- `re.sub(r'<[^>]+>', '', s)`: drop HTML tags. -/
def stripTags (s : List Char) : List Char := stripTagsF s.length s

/-- Does `s` begin with a plain (attribute-less) `<h2>` or `<h3>`?  This is
what the pattern `<(h[23])>` of `md_to_html` can match at this position. -/
def isOpenTag (s : List Char) : Bool :=
  "<h2>".data.isPrefixOf s || "<h3>".data.isPrefixOf s

/-- The heading name (`h2` or `h3`) captured at an `isOpenTag` position. -/
def tagNameAt (s : List Char) : List Char :=
  if "<h2>".data.isPrefixOf s then "h2".data else "h3".data

/-- Non-greedy search for the earliest `</h2>` or `</h3>`: returns the
content before it and the text after it (the close tag consumes 5
characters).  This is `(.*?)</h[23]>` with `re.DOTALL`. -/
def findClose : List Char → Option (List Char × List Char)
  | [] => none
  | c :: rest =>
    if "</h2>".data.isPrefixOf (c :: rest) || "</h3>".data.isPrefixOf (c :: rest) then
      some ([], (c :: rest).drop 5)
    else
      match findClose rest with
      | some (ct, aft) => some (c :: ct, aft)
      | none => none

/-- The anchor slug computed inside `add_id`:
`re.sub(r'[^\w一-鿿]+', '-', text.lower()).strip('-')` where `text` is the
tag-stripped heading content. -/
def headingSlug (content : List Char) : List Char :=
  stripHyphens (collapseNonWord ((stripTags content).map pyLower))

/-- The replacement produced by `add_id`:
`f'<{tag} id="{slug}">{content}</{tag}>'`. -/
def headingElem (tag content : List Char) : List Char :=
  "<".data ++ tag ++ " id=\"".data ++ headingSlug content ++ "\">".data ++
    content ++ "</".data ++ tag ++ ">".data

/-- The heading-anchor post-processing pass of `md_to_html`:
`re.sub(r'<(h[23])>(.*?)</h[23]>', add_id, html, flags=re.DOTALL)`, fuelled
(one unit per character of the scanned text; `fuel = s.length` suffices).
Matches are non-overlapping and taken left to right; inside a match the
close is the earliest one (non-greedy `.*?`). -/
def addIdsF : Nat → List Char → List Char
  | 0, s => s
  | _, [] => []
  | fuel + 1, c :: rest =>
    if isOpenTag (c :: rest) then
      match findClose ((c :: rest).drop 4) with
      | some (content, after) =>
          headingElem (tagNameAt (c :: rest)) content ++ addIdsF fuel after
      | none => c :: addIdsF fuel rest
    else c :: addIdsF fuel rest

/-- The anchor-injection transform on a full HTML fragment. -/
def addIds (s : List Char) : List Char := addIdsF s.length s

/-- Does any position of `s` start a plain `<h2>`/`<h3>` opening tag? -/
def containsOpenTag : List Char → Bool
  | [] => false
  | c :: rest => isOpenTag (c :: rest) || containsOpenTag rest

/-- Does any position of `s` start a `</h2>`/`</h3>` closing tag? -/
def containsCloseTag : List Char → Bool
  | [] => false
  | c :: rest =>
    ("</h2>".data.isPrefixOf (c :: rest) || "</h3>".data.isPrefixOf (c :: rest)) ||
      containsCloseTag rest

/-- Fuelled scan parallel to `addIdsF`: `true` when no matched heading's
content itself contains a plain `<h2>`/`<h3>` opening tag (the fragments for
which the anchor pass does not create a freshly matchable heading). -/
def goodScanF : Nat → List Char → Bool
  | 0, _ => true
  | _, [] => true
  | fuel + 1, c :: rest =>
    if isOpenTag (c :: rest) then
      match findClose ((c :: rest).drop 4) with
      | some (content, after) => !containsOpenTag content && goodScanF fuel after
      | none => goodScanF fuel rest
    else goodScanF fuel rest

/-- `goodScanF` at its canonical fuel. -/
def goodScan (s : List Char) : Bool := goodScanF s.length s

/-- A table-of-contents entry `{"level": tag, "id": slug, "text": text}`
produced by `extract_toc`. -/
structure TocEntry where
  level : List Char
  id : List Char
  text : List Char
deriving DecidableEq, Repr

/-- Does `s` begin with `<h2 id="` or `<h3 id="` (8 characters), the start
of the pattern `<(h[23]) id="([^"]+)">` of `extract_toc`? -/
def isTocOpen (s : List Char) : Bool :=
  "<h2 id=\"".data.isPrefixOf s || "<h3 id=\"".data.isPrefixOf s

/-- The heading name captured at an `isTocOpen` position. -/
def tocTagName (s : List Char) : List Char :=
  if "<h2 id=\"".data.isPrefixOf s then "h2".data else "h3".data

/-- Split at the first `"`: the characters before it and the text after it. -/
def splitAtQuote : List Char → Option (List Char × List Char)
  | [] => none
  | '"' :: r => some ([], r)
  | c :: r => (splitAtQuote r).map (fun p => (c :: p.1, p.2))

/-- The `([^"]+)">` part of the `extract_toc` pattern: a non-empty run of
non-quote characters, the closing quote, then `>`.  Returns the id value and
the text after `">`; `none` when the id would be empty or `>` is missing. -/
def readAttr (s : List Char) : Option (List Char × List Char) :=
  match splitAtQuote s with
  | some (idv, r) =>
    if idv ≠ [] ∧ r.head? = some '>' then some (idv, r.drop 1) else none
  | none => none

/-- `extract_toc`'s `re.finditer(r'<(h[23]) id="([^"]+)">(.*?)</h[23]>', html,
re.DOTALL)` loop, fuelled (one unit per character; `fuel = html.length`
suffices).  Each match yields `{"level": tag, "id": slug, "text":
tag-stripped content}`; scanning resumes after the match. -/
def extractTocF : Nat → List Char → List TocEntry
  | 0, _ => []
  | _, [] => []
  | fuel + 1, c :: rest =>
    if isTocOpen (c :: rest) then
      match readAttr ((c :: rest).drop 8) with
      | some (idv, s1) =>
        match findClose s1 with
        | some (content, after) =>
            ⟨tocTagName (c :: rest), idv, stripTags content⟩ :: extractTocF fuel after
        | none => extractTocF fuel rest
      | none => extractTocF fuel rest
    else extractTocF fuel rest

/-- `extract_toc` from publish.py. -/
def extract_toc (html : List Char) : List TocEntry := extractTocF html.length html

/-- Leading segment of `TOC_HTML_TMPL` (before `{items}`). -/
def tocSeg0 : List Char :=
  "\n    <div class=\"toc-title\">// 目录</div>\n    <ul class=\"toc-list\" id=\"toc\">\n".data

/-- Trailing segment of `TOC_HTML_TMPL` (after `{items}`). -/
def tocSeg1 : List Char := "\n    </ul>\n".data

/-- One `<li>` of `render_toc` (`sub` class for `h3` entries; text escaped). -/
def tocItemHtml (item : TocEntry) : List Char :=
  "      <li class=\"".data ++
    (if item.level = "h3".data then "toc-item sub".data else "toc-item".data) ++
    "\"><a href=\"#".data ++ item.id ++ "\">".data ++ escapeHtml item.text ++
    "</a></li>".data

/-- `render_toc` from publish.py. -/
def render_toc (toc : List TocEntry) : List Char :=
  tocSeg0 ++ List.intercalate "\n".data (toc.map tocItemHtml) ++ tocSeg1

/-- One tag chip of `render_tags`:
`f'<span class="tag hl">{escape(t)}</span>'` — note every chip carries the
highlighted class `tag hl`. -/
def hlChip (t : List Char) : List Char :=
  "<span class=\"tag hl\">".data ++ escapeHtml t ++ "</span>".data

/-- `render_tags` from publish.py. -/
def render_tags (tags : List (List Char)) : List Char :=
  if tags = [] then []
  else "<div class=\"post-tags\">".data ++ (tags.map hlChip).flatten ++ "</div>".data

/-- `render_tags` with the escaping factored out: chips are built from
already-prepared strings. -/
def hlChipRaw (t : List Char) : List Char :=
  "<span class=\"tag hl\">".data ++ t ++ "</span>".data

/-- `render_tags` on pre-escaped tag strings (used to state that the page
depends on user tags only through `escapeHtml`). -/
def render_tags_raw (tagsEsc : List (List Char)) : List Char :=
  if tagsEsc = [] then []
  else "<div class=\"post-tags\">".data ++ (tagsEsc.map hlChipRaw).flatten ++ "</div>".data

/-- Python `round(n / 300)` for a natural `n`: round half to even.  The
ties `n / 300 = k + 1/2` arise exactly at `n % 300 = 150` and are exactly
representable as floats (and `n / 300` is then computed exactly), so
Python's float rounding agrees with this exact rational rounding. -/
def round300 (n : Nat) : Nat :=
  if n % 300 < 150 then n / 300
  else if 150 < n % 300 then n / 300 + 1
  else if n / 300 % 2 = 0 then n / 300 else n / 300 + 1

/-- `max(1, round(word_count / 300))` — the reading-time estimate. -/
def readingEstimate (n : Nat) : Nat := max 1 (round300 n)

/-- The `word_count` of `generate_post_html`:
`len(re.sub(r'<[^>]+>', '', body_html))`. -/
def wordCount (body_html : List Char) : Nat := (stripTags body_html).length

/-! The fixed page layout of `generate_post_html`, split at its
interpolation slots (in order: title, date, reading minutes, title again,
tag chips, description block, body HTML, table of contents).  Literal braces
of the CSS/JS are written `\x7b`/`\x7d` and apostrophes `\x27`. -/

/-- Fixed template text of the post page (segment 0). -/
def pageSeg0 : List Char :=
  "<!DOCTYPE html>\n<html lang=\"zh\">\n<head>\n  <meta charset=\"UTF-8\">\n  <meta name=\"viewport\" content=\"width=device-width, initial-scale=1.0\">\n  <title>".data

/-- Fixed template text of the post page (segment 1). -/
def pageSeg1 : List Char :=
  " · 深渊研究室</title>\n  <link rel=\"preconnect\" href=\"https://fonts.googleapis.com\">\n  <link href=\"https://fonts.googleapis.com/css2?family=Lora:ital,wght@0,400;0,600;1,400&family=JetBrains+Mono:wght@400;500&family=Source+Sans+3:wght@300;400;600&display=swap\" rel=\"stylesheet\">\n  <style>\n    :root \x7b\n      --bg:#faf8f4;--surface:#f2ede5;--border:#ddd8cc;--text:#1a1814;\n      --muted:#7a7268;--accent:#c0392b;--accent-light:#f5e6e4;\n      --link:#2c5282;--code-bg:#ece8e0;--shadow:rgba(0,0,0,.06);\n    \x7d\n    [data-theme=\"dark\"] \x7b\n      --bg:#141210;--surface:#1e1c18;--border:#2e2b24;--text:#e8e4dc;\n      --muted:#8a8278;--accent:#e05a4e;--accent-light:#2a1a18;\n      --link:#7eb8e8;--code-bg:#1a1814;--shadow:rgba(0,0,0,.3);\n    \x7d\n    *,*::before,*::after\x7bbox-sizing:border-box;margin:0;padding:0\x7d\n    body\x7bfont-family:\x27Source Sans 3\x27,sans-serif;background:var(--bg);color:var(--text);font-size:17px;line-height:1.7;transition:background .3s,color .3s\x7d\n    .topbar\x7bposition:sticky;top:0;z-index:100;background:var(--bg);border-bottom:1px solid var(--border);padding:.9rem 2rem;display:flex;justify-content:space-between;align-items:center;backdrop-filter:blur(8px)\x7d\n    .back-link\x7bfont-family:\x27JetBrains Mono\x27,monospace;font-size:.8rem;color:var(--muted);text-decoration:none;transition:color .15s\x7d\n    .back-link:hover\x7bcolor:var(--accent)\x7d\n    .theme-btn\x7bbackground:none;border:1px solid var(--border);border-radius:6px;padding:.25rem .55rem;font-size:.75rem;color:var(--muted);cursor:pointer;font-family:\x27JetBrains Mono\x27,monospace;transition:all .15s\x7d\n    .theme-btn:hover\x7bborder-color:var(--accent);color:var(--accent)\x7d\n    .progress-bar\x7bposition:fixed;top:0;left:0;height:2px;background:var(--accent);z-index:200;transition:width .1s\x7d\n    .page\x7bmax-width:1100px;margin:0 auto;display:grid;grid-template-columns:1fr 220px;gap:4rem;padding:4rem 2rem 8rem\x7d\n    .post-meta\x7bmargin-bottom:2rem\x7d\n    .post-date\x7bfont-family:\x27JetBrains Mono\x27,monospace;font-size:.8rem;color:var(--muted);margin-bottom:.8rem\x7d\n    .post-title\x7bfont-family:\x27Lora\x27,serif;font-size:2.2rem;font-weight:600;line-height:1.3;margin-bottom:1rem\x7d\n    .post-tags\x7bdisplay:flex;flex-wrap:wrap;gap:.4rem;margin-bottom:1.5rem\x7d\n    .tag\x7bfont-size:.72rem;padding:.2rem .55rem;border-radius:100px;background:var(--surface);color:var(--muted);font-family:\x27JetBrains Mono\x27,monospace\x7d\n    .tag.hl\x7bbackground:var(--accent-light);color:var(--accent)\x7d\n    .post-desc\x7bfont-size:1.05rem;color:var(--muted);line-height:1.7;padding:1.2rem 1.5rem;border-left:3px solid var(--accent);background:var(--surface);border-radius:0 8px 8px 0\x7d\n    .divider\x7bheight:1px;background:var(--border);margin:2.5rem 0\x7d\n    .prose\x7bmax-width:680px\x7d\n    .prose h2\x7bfont-family:\x27Lora\x27,serif;font-size:1.5rem;font-weight:600;margin:2.5rem 0 1rem\x7d\n    .prose h3\x7bfont-family:\x27Lora\x27,serif;font-size:1.15rem;font-weight:600;margin:2rem 0 .7rem\x7d\n    .prose p\x7bmargin-bottom:1.2rem\x7d\n    .prose a\x7bcolor:var(--link);text-decoration:underline;text-underline-offset:3px\x7d\n    .prose a:hover\x7bcolor:var(--accent)\x7d\n    .prose strong\x7bfont-weight:600\x7d\n    .prose em\x7bfont-style:italic;font-family:\x27Lora\x27,serif\x7d\n    .prose ul,.prose ol\x7bpadding-left:1.5rem;margin-bottom:1.2rem\x7d\n    .prose li\x7bmargin-bottom:.4rem\x7d\n    .prose pre\x7bbackground:var(--code-bg);border:1px solid var(--border);border-radius:8px;padding:1.2rem 1.4rem;overflow-x:auto;margin:1.5rem 0;font-size:.82rem;line-height:1.65\x7d\n    .prose code\x7bfont-family:\x27JetBrains Mono\x27,monospace;font-size:.85em\x7d\n    .prose p code,.prose li code\x7bbackground:var(--code-bg);padding:.1em .4em;border-radius:4px;font-size:.83em\x7d\n    .prose blockquote\x7bborder-left:3px solid var(--accent);padding:.8rem 1.2rem;margin:1.5rem 0;background:var(--surface);border-radius:0 6px 6px 0;color:var(--muted);font-style:italic;font-family:\x27Lora\x27,serif\x7d\n    .prose table\x7bwidth:100%;border-collapse:collapse;font-size:.88rem;margin:1.5rem 0\x7d\n    .prose th\x7bbackground:var(--surface);font-family:\x27JetBrains Mono\x27,monospace;font-size:.75rem;padding:.6rem 1rem;text-align:left;border-bottom:2px solid var(--border);color:var(--muted)\x7d\n    .prose td\x7bpadding:.6rem 1rem;border-bottom:1px solid var(--border)\x7d\n    .prose tr:last-child td\x7bborder-bottom:none\x7d\n    .toc-sidebar\x7bposition:sticky;top:5rem;height:fit-content\x7d\n    .toc-title\x7bfont-family:\x27JetBrains Mono\x27,monospace;font-size:.72rem;color:var(--muted);text-transform:uppercase;letter-spacing:.1em;margin-bottom:.8rem\x7d\n    .toc-list\x7blist-style:none;display:flex;flex-direction:column;gap:0\x7d\n    .toc-item a\x7bdisplay:block;font-size:.82rem;color:var(--muted);text-decoration:none;padding:.3rem .7rem;border-left:2px solid var(--border);transition:all .15s;line-height:1.4\x7d\n    .toc-item a:hover,.toc-item.active a\x7bcolor:var(--accent);border-left-color:var(--accent)\x7d\n    .toc-item.sub a\x7bpadding-left:1.4rem;font-size:.78rem\x7d\n    @media(max-width:900px)\x7b.page\x7bgrid-template-columns:1fr;gap:0\x7d.toc-sidebar\x7bdisplay:none\x7d.post-title\x7bfont-size:1.7rem\x7d\x7d\n    @media(max-width:600px)\x7b.page\x7bpadding:2rem 1.2rem 6rem\x7d\x7d\n    @keyframes fadeIn\x7bfrom\x7bopacity:0;transform:translateY(10px)\x7dto\x7bopacity:1;transform:translateY(0)\x7d\x7d\n    article\x7banimation:fadeIn .5s ease\x7d\n  </style>\n</head>\n<body>\n<div class=\"progress-bar\" id=\"progress\"></div>\n<nav class=\"topbar\">\n  <a href=\"index.html\" class=\"back-link\">← 所有文章</a>\n  <button class=\"theme-btn\" onclick=\"toggleTheme()\">◑ theme</button>\n</nav>\n<div class=\"page\">\n  <article>\n    <div class=\"post-meta\">\n      <div class=\"post-date\">".data

/-- Fixed template text of the post page (segment 2). -/
def pageSeg2 : List Char :=
  " · 预计阅读 ".data

/-- Fixed template text of the post page (segment 3). -/
def pageSeg3 : List Char :=
  " 分钟</div>\n      <h1 class=\"post-title\">".data

/-- Fixed template text of the post page (segment 4). -/
def pageSeg4 : List Char :=
  "</h1>\n      ".data

/-- Fixed template text of the post page (segment 5). -/
def pageSeg5 : List Char :=
  "\n      ".data

/-- Fixed template text of the post page (segment 6). -/
def pageSeg6 : List Char :=
  "\n    </div>\n    <div class=\"divider\"></div>\n    <div class=\"prose\" id=\"prose\">\n".data

/-- Fixed template text of the post page (segment 7). -/
def pageSeg7 : List Char :=
  "\n    </div>\n    <div class=\"divider\"></div>\n    <div style=\"font-size:.85rem;color:var(--muted);font-family:\x27JetBrains Mono\x27,monospace;display:flex;justify-content:space-between;align-items:center;flex-wrap:wrap;gap:1rem;\">\n      <span>// 如有错误请通过 GitHub Issues 指正</span>\n      <a href=\"index.html\" style=\"color:var(--accent);text-decoration:none;\">← 返回文章列表</a>\n    </div>\n  </article>\n  <aside class=\"toc-sidebar\">\n    ".data

/-- Fixed template text of the post page (segment 8). -/
def pageSeg8 : List Char :=
  "\n  </aside>\n</div>\n<script>\n  function toggleTheme()\x7bconst c=document.documentElement.getAttribute(\x27data-theme\x27);document.documentElement.setAttribute(\x27data-theme\x27,c===\x27dark\x27?\x27light\x27:\x27dark\x27);localStorage.setItem(\x27theme\x27,c===\x27dark\x27?\x27light\x27:\x27dark\x27);\x7d\n  const saved=localStorage.getItem(\x27theme\x27);if(saved)document.documentElement.setAttribute(\x27data-theme\x27,saved);\n  window.addEventListener(\x27scroll\x27,()=>\x7b\n    const d=document.documentElement,s=d.scrollTop,t=d.scrollHeight-d.clientHeight;\n    document.getElementById(\x27progress\x27).style.width=(s/t*100)+\x27%\x27;\n    const hs=document.querySelectorAll(\x27.prose h2,.prose h3\x27),ti=document.querySelectorAll(\x27.toc-item\x27);\n    let cur=\x27\x27;hs.forEach(h=>\x7bif(h.offsetTop-100<=s)cur=h.id;\x7d);\n    ti.forEach(i=>\x7bconst a=i.querySelector(\x27a\x27);i.classList.toggle(\x27active\x27,a&&a.getAttribute(\x27href\x27)===\x27#\x27+cur);\x7d);\n  \x7d);\n</script>\n</body>\n</html>".data


/-- `generate_post_html` from publish.py: the full page document as a
function of (article, tags, date string, rendered body HTML, TOC list). -/
def generate_post_html (article : Article) (tags : List (List Char))
    (date_str body_html : List Char) (toc : List TocEntry) : List Char :=
  let title_esc := escapeHtml article.title
  let abstract_esc := if article.abstract ≠ [] then escapeHtml article.abstract else []
  let toc_html := if toc ≠ [] then render_toc toc else []
  let tags_html := render_tags tags
  let reading_min := readingEstimate (wordCount body_html)
  let desc_block :=
    if abstract_esc ≠ [] then
      "<div class=\"post-desc\">".data ++ abstract_esc ++ "</div>".data
    else []
  pageSeg0 ++ title_esc ++ pageSeg1 ++ date_str ++ pageSeg2 ++
    (Nat.repr reading_min).data ++ pageSeg3 ++ title_esc ++ pageSeg4 ++
    tags_html ++ pageSeg5 ++ desc_block ++ pageSeg6 ++ body_html ++
    pageSeg7 ++ toc_html ++ pageSeg8

/-- `generate_post_html` with the escaping of the user-supplied texts
(title, abstract, tags) factored out: the same page template applied to
already-escaped strings.  Comparing it with `generate_post_html` states
that user text reaches the page only through `escapeHtml`. -/
def generate_post_html_raw (title_esc abstract_src : List Char)
    (tagsEsc : List (List Char)) (date_str body_html : List Char)
    (toc : List TocEntry) : List Char :=
  let abstract_esc := if abstract_src ≠ [] then abstract_src else []
  let toc_html := if toc ≠ [] then render_toc toc else []
  let tags_html := render_tags_raw tagsEsc
  let reading_min := readingEstimate (wordCount body_html)
  let desc_block :=
    if abstract_esc ≠ [] then
      "<div class=\"post-desc\">".data ++ abstract_esc ++ "</div>".data
    else []
  pageSeg0 ++ title_esc ++ pageSeg1 ++ date_str ++ pageSeg2 ++
    (Nat.repr reading_min).data ++ pageSeg3 ++ title_esc ++ pageSeg4 ++
    tags_html ++ pageSeg5 ++ desc_block ++ pageSeg6 ++ body_html ++
    pageSeg7 ++ toc_html ++ pageSeg8

/-- The insertion marker of `update_index`: `'<div class="post-list">'`. -/
def indexMarker : List Char := "<div class=\"post-list\">".data

/-- One tag chip of the index entry:
`f'<span class="post-tag{"  featured" if i < 2 else ""}">{escape(t)}</span>'`
— only the first two tags (`i < 2`) receive the `featured` class. -/
def indexTagChip (i : Nat) (t : List Char) : List Char :=
  "<span class=\"post-tag".data ++ (if i < 2 then "  featured".data else []) ++
    "\">".data ++ escapeHtml t ++ "</span>".data

/-- `date_str.replace("-", " · ")` (the pattern is a single character, so
the replacement is character-wise). -/
def date_display (date_str : List Char) : List Char :=
  (date_str.map (fun c => if c = '-' then " · ".data else [c])).flatten

/-- The date text actually shown in the index entry:
`date_display[5:]` from `update_index`. -/
def indexDateShown (date_str : List Char) : List Char :=
  (date_display date_str).drop 5

/-- The summary entry fragment `new_item` built by `update_index`
(excerpt = abstract truncated at 120 characters with `…` appended). -/
def newIndexItem (post_filename title abstract : List Char)
    (tags : List (List Char)) (date_str : List Char) : List Char :=
  let tags_html := ((tags.enum).map (fun p => indexTagChip p.1 p.2)).flatten
  let excerpt := if 120 < abstract.length then abstract.take 120 ++ "…".data else abstract
  "        <a href=\"".data ++ post_filename ++ "\" class=\"post-item\" data-title=\"".data ++
    escapeHtml title ++ "\" data-tags=\"".data ++
    escapeHtml (List.intercalate " ".data tags) ++
    "\">\n          <div class=\"post-date\">".data ++ indexDateShown date_str ++
    "</div>\n          <div class=\"post-content\">\n            <div class=\"post-title\">".data ++
    escapeHtml title ++ "</div>\n            <div class=\"post-excerpt\">".data ++
    escapeHtml excerpt ++ "</div>\n            <div class=\"post-tags\">".data ++ tags_html ++
    "</div>\n          </div>\n        </a>".data

/-- The splice step of `update_index` on the index document's content:
`some` of the rewritten document when the marker occurs
(`html.replace(marker, marker + "\n" + new_item, 1)` — insert right after
the first occurrence); `none` when it does not, in which case the file is
left untouched and only a warning is printed. -/
def update_index (html post_filename title abstract : List Char)
    (tags : List (List Char)) (date_str : List Char) : Option (List Char) :=
  let new_item := newIndexItem post_filename title abstract tags date_str
  if containsSub indexMarker html then
    some (replaceFirst indexMarker (indexMarker ++ "\n".data ++ new_item) html)
  else none

/-- `true` when no two adjacent characters of `s` are both hyphens (the
shape of `collapseNonWord` output, used for the slug fixed-point results). -/
def noHH : List Char → Bool
  | [] => true
  | [_] => true
  | a :: x :: t => !(a == '-' && x == '-') && noHH (x :: t)

theorem escapeHtml_eq_nil_iff (s : List Char) : escapeHtml s = [] ↔ s = [] := by
  cases s with
  | nil => simp [escapeHtml]
  | cons c rest =>
    simp only [escapeHtml]
    constructor
    · intro h
      rcases List.append_eq_nil.mp h with ⟨h1, -⟩
      repeat' split at h1
      all_goals simp_all
    · intro h
      simp at h

theorem flatten_map_decomp {α β : Type} (f : α → List β) :
    ∀ (l : List α) (i : Nat) (h : i < l.length),
      ∃ pre post, (l.map f).flatten = pre ++ f (l.get ⟨i, h⟩) ++ post := by
  intro l
  induction l with
  | nil => intro i h; simp at h
  | cons a t ih =>
    intro i h
    match i with
    | 0 => exact ⟨[], (t.map f).flatten, by simp⟩
    | i + 1 =>
      obtain ⟨pre, post, hp⟩ := ih i (by simpa using h)
      exact ⟨f a ++ pre, post, by simp [hp]⟩

set_option maxRecDepth 40000 in
/-- C8: the reading-time estimate of the Composer equals
`max(1, round(word_count / 300))` where `word_count` is the character count
of the tag-stripped body HTML; 600 stripped characters give estimate 2, and
every count from 1 to 300 gives estimate 1. -/
theorem C8_reading_estimate :
    (∀ body_html, readingEstimate (wordCount body_html) =
        max 1 (round300 (stripTags body_html).length))
    ∧ readingEstimate 600 = 2
    ∧ ∀ n, 1 ≤ n → n ≤ 300 → readingEstimate n = 1 := by
  refine ⟨fun _ => rfl, by decide, ?_⟩
  intro n h1 h2
  have hb : ∀ m, m < 301 → 1 ≤ m → readingEstimate m = 1 := by decide
  exact hb n (by omega) h1

theorem C8_reading_estimate_witness : readingEstimate 299 = 1 :=
  C8_reading_estimate.2.2 299 (by decide) (by decide)

set_option maxRecDepth 4000 in
/-- C6: for date string "2025-02-01" the index entry displays the date as
"· 02 · 01" (the slice `[5:]` is taken after "-" was replaced by " · ",
leaving a dangling separator), not "02 · 01" as the spec intends. -/
theorem C6_date_display_bug :
    indexDateShown "2025-02-01".data = "· 02 · 01".data ∧
    indexDateShown "2025-02-01".data ≠ "02 · 01".data ∧
    containsSub "<div class=\"post-date\">· 02 · 01</div>".data
      (newIndexItem "p.html".data "T".data "A".data [] "2025-02-01".data) = true := by
  exact ⟨by decide, by decide, by decide⟩

/-- C4 counterexample: the Composer's `render_tags` gives the highlighted
class `tag hl` to EVERY chip — with three tags the third chip also carries
it, refuting "at most the first two tags receive the distinct class". -/
theorem C4_tags_cex :
    render_tags ["a".data, "b".data, "c".data] =
      ("<div class=\"post-tags\"><span class=\"tag hl\">a</span>" ++
        "<span class=\"tag hl\">b</span><span class=\"tag hl\">c</span></div>").data ∧
    countOccur "tag hl".data (render_tags ["a".data, "b".data, "c".data]) = 3 := by
  exact ⟨by decide, by decide⟩

/-- C4 amended: every tag chip of the Composer's post page carries the
highlighted class (`hlChip`); only the Index Updater's entry fragment
restricts the distinct `featured` class to the first two tags. -/
theorem C4_amended (tags : List (List Char)) :
    (∀ i (h : i < tags.length),
      ∃ pre post, render_tags tags = pre ++ hlChip (tags.get ⟨i, h⟩) ++ post)
    ∧ (∀ i t, 2 ≤ i →
        indexTagChip i t = "<span class=\"post-tag\">".data ++ escapeHtml t ++ "</span>".data)
    ∧ (∀ i t, i < 2 →
        indexTagChip i t =
          "<span class=\"post-tag  featured\">".data ++ escapeHtml t ++ "</span>".data) := by
  refine ⟨?_, ?_, ?_⟩
  · intro i h
    have hne : tags ≠ [] := by
      intro hn; subst hn; simp at h
    obtain ⟨pre, post, hp⟩ := flatten_map_decomp hlChip tags i h
    refine ⟨"<div class=\"post-tags\">".data ++ pre, post ++ "</div>".data, ?_⟩
    simp [render_tags, hne, hp]
  · intro i t hi
    have : ¬ i < 2 := by omega
    simp [indexTagChip, this]
  · intro i t hi
    simp [indexTagChip, hi]

theorem C4_amended_witness :
    (∃ pre post, render_tags ["x".data, "y".data, "z".data] =
      pre ++ hlChip "z".data ++ post) ∧
    indexTagChip 2 "z".data =
      "<span class=\"post-tag\">".data ++ escapeHtml "z".data ++ "</span>".data :=
  ⟨(C4_amended ["x".data, "y".data, "z".data]).1 2 (by decide),
    (C4_amended []).2.1 2 "z".data (by decide)⟩

theorem escapeHtml_no_angle : ∀ s : List Char, ∀ c ∈ escapeHtml s, c ≠ '<' ∧ c ≠ '>' := by
  intro s
  induction s with
  | nil => intro c h; simp [escapeHtml] at h
  | cons a t ih =>
    intro c h
    simp only [escapeHtml] at h
    rcases List.mem_append.mp h with h1 | h2
    · repeat' split at h1
      all_goals (first | (fin_cases h1 <;> decide) | (simp at h1; subst h1; simp_all))
    · exact ih c h2

theorem render_tags_factor (tags : List (List Char)) :
    render_tags tags = render_tags_raw (tags.map escapeHtml) := by
  by_cases h : tags = []
  · subst h; simp [render_tags, render_tags_raw]
  · have h2 : tags.map escapeHtml ≠ [] := by simpa using h
    simp only [render_tags, render_tags_raw, if_neg h, if_neg h2, List.map_map]
    rfl

/-- C2: all user-supplied text (title, abstract, tags) reaches the page
produced by `generate_post_html` only through `escapeHtml` (the page equals
the same template applied to the escaped strings), escaped text contains no
`<` or `>` at all, and a `<script>` title is rendered as
`&lt;script&gt;` — never as a live tag. -/
theorem C2_escaping :
    (∀ (article : Article) (tags : List (List Char)) (date_str body_html : List Char)
        (toc : List TocEntry),
      generate_post_html article tags date_str body_html toc =
        generate_post_html_raw (escapeHtml article.title) (escapeHtml article.abstract)
          (tags.map escapeHtml) date_str body_html toc)
    ∧ (∀ s : List Char, ∀ c ∈ escapeHtml s, c ≠ '<' ∧ c ≠ '>')
    ∧ escapeHtml "<script>".data = "&lt;script&gt;".data := by
  refine ⟨?_, escapeHtml_no_angle, by decide⟩
  intro article tags date_str body_html toc
  have habs : (if article.abstract ≠ [] then escapeHtml article.abstract else []) =
      (if escapeHtml article.abstract ≠ [] then escapeHtml article.abstract else []) := by
    by_cases h : article.abstract = []
    · simp [h, escapeHtml]
    · simp [h, (escapeHtml_eq_nil_iff article.abstract).not.mpr h]
  simp only [generate_post_html, generate_post_html_raw, render_tags_factor, habs]

theorem C2_escaping_witness : 'a' ≠ '<' ∧ 'a' ≠ '>' :=
  C2_escaping.2.1 "abc".data 'a' (by decide)

theorem replaceFirst_decomp (old new : List Char) (hne : old ≠ []) :
    ∀ s, containsSub old s = true →
      ∃ b a, s = b ++ old ++ a ∧ replaceFirst old new s = b ++ new ++ a ∧
        ∀ i, i < b.length → old.isPrefixOf (List.drop i s) = false := by
  intro s
  induction s with
  | nil =>
    intro h
    simp only [containsSub] at h
    rw [ List.isPrefixOf_iff_prefix] at h
    simp [List.prefix_nil] at h
    exact absurd h hne
  | cons c rest ih =>
    intro h
    by_cases hp : old.isPrefixOf (c :: rest) = true
    · have hpre := List.isPrefixOf_iff_prefix.mp hp
      have hdec : old ++ List.drop old.length (c :: rest) = c :: rest :=
        List.prefix_iff_eq_append.mp hpre
      refine ⟨[], List.drop old.length (c :: rest), by simpa using hdec.symm, ?_, ?_⟩
      · simp [replaceFirst, hp]
      · intro i hi; simp at hi
    · have hp' : old.isPrefixOf (c :: rest) = false := by
        simp only [Bool.not_eq_true] at hp
        exact hp
      have h' : containsSub old rest = true := by
        simpa [containsSub, hp'] using h
      obtain ⟨b, a, h1, h2, h3⟩ := ih h'
      refine ⟨c :: b, a, by simp [h1], ?_, ?_⟩
      · simp only [replaceFirst, if_neg (by simp [hp'] : ¬ old.isPrefixOf (c :: rest) = true), h2]
        simp
      · intro i hi
        match i with
        | 0 => simpa using hp'
        | i + 1 =>
          simpa using h3 i (by simpa using hi)

/-- C1: when the index document contains the marker
`'<div class="post-list">'`, `update_index` rewrites it to
`before ++ marker ++ "\n" ++ new entry ++ after` where `before/after` split
the document at the first occurrence of the marker — the spliced entry sits
immediately after that first occurrence and every other byte is unchanged;
when the marker is absent the updater performs no write (`none`) and only
warns. -/
theorem C1_index_splice (html post_filename title abstract : List Char)
    (tags : List (List Char)) (date_str : List Char) :
    (containsSub indexMarker html = true →
      ∃ b a, html = b ++ indexMarker ++ a ∧
        update_index html post_filename title abstract tags date_str =
          some (b ++ indexMarker ++ "\n".data ++
            newIndexItem post_filename title abstract tags date_str ++ a) ∧
        ∀ i, i < b.length → indexMarker.isPrefixOf (List.drop i html) = false)
    ∧ (containsSub indexMarker html = false →
      update_index html post_filename title abstract tags date_str = none) := by
  constructor
  · intro h
    obtain ⟨b, a, h1, h2, h3⟩ :=
      replaceFirst_decomp indexMarker
        (indexMarker ++ "\n".data ++ newIndexItem post_filename title abstract tags date_str)
        (by decide) html h
    refine ⟨b, a, h1, ?_, h3⟩
    simp only [update_index, if_pos h, h2]
    simp
  · intro h
    simp [update_index, h]

set_option maxRecDepth 8000 in
theorem C1_index_splice_witness :
    containsSub indexMarker "A<div class=\"post-list\">B".data = true ∧
    (∃ b a, "A<div class=\"post-list\">B".data = b ++ indexMarker ++ a ∧
      update_index "A<div class=\"post-list\">B".data "p.html".data "T".data "Ab".data
          ["x".data] "2025-02-01".data =
        some (b ++ indexMarker ++ "\n".data ++
          newIndexItem "p.html".data "T".data "Ab".data ["x".data] "2025-02-01".data ++ a) ∧
      ∀ i, i < b.length →
        indexMarker.isPrefixOf (List.drop i "A<div class=\"post-list\">B".data) = false) :=
  ⟨by decide,
    (C1_index_splice "A<div class=\"post-list\">B".data "p.html".data "T".data "Ab".data
      ["x".data] "2025-02-01".data).1 (by decide)⟩

theorem pyStrip_append_ws (v w : List Char) (hw : ∀ c ∈ w, c.isWhitespace = true) :
    pyStrip (v ++ w) = pyStrip v := by
  have hwnil : w.dropWhile Char.isWhitespace = [] := List.dropWhile_eq_nil_iff.mpr hw
  have hwrev : w.reverse.dropWhile Char.isWhitespace = [] :=
    List.dropWhile_eq_nil_iff.mpr (by intro x hx; exact hw x (List.mem_reverse.mp hx))
  unfold pyStrip
  rw [List.dropWhile_append]
  by_cases hv : (v.dropWhile Char.isWhitespace).isEmpty
  · rw [if_pos hv, hwnil]
    have hvnil : v.dropWhile Char.isWhitespace = [] := by
      simpa [List.isEmpty_iff] using hv
    rw [hvnil]
  · rw [if_neg hv, List.reverse_append, List.dropWhile_append, if_pos (by simp [hwrev])]

theorem findFirstHeading_at :
    ∀ (lines : List (List Char)) (i : Nat) (l : List Char),
      lines[i]? = some l → "# ".data.isPrefixOf l = true →
      (∀ j, j < i → "# ".data.isPrefixOf ((lines[j]?).getD []) = false) →
      findFirstHeading lines = some (i, l) := by
  intro lines
  induction lines with
  | nil => intro i l hget _ _; simp at hget
  | cons x rest ih =>
    intro i l hget hpref hbefore
    match i with
    | 0 =>
      simp at hget
      subst hget
      simp [findFirstHeading, hpref]
    | i + 1 =>
      have hx : "# ".data.isPrefixOf x = false := by
        simpa using hbefore 0 (by omega)
      have hre := ih i l (by simpa using hget) hpref
        (fun j hj => by simpa using hbefore (j + 1) (by omega))
      simp [findFirstHeading, hx, hre]

theorem buildArticle_title (t : List Char) (ls : List (List Char)) :
    (buildArticle t ls).title = t := by
  simp only [buildArticle]
  split <;> rfl

/-- C5 counterexample: the input `"a\n # Title"` contains a line whose
content is `# Title` surrounded by leading whitespace, yet `parse_article`
extracts an empty title (`startswith("# ")` rejects the indented line). -/
theorem C5_leading_ws_cex :
    (parse_article "a\n # Title".data).title = [] ∧
    (parse_article "a\n # Title".data).title ≠ "Title".data := by
  exact ⟨by decide, by decide⟩

/-- C5 amended: if the FIRST line of the stripped document that starts with
`"# "` is exactly `"# Title"` followed only by trailing whitespace, then
`parse_article` returns title `"Title"`; a line with leading whitespace is
never recognized as the heading. -/
theorem C5_amended (md : List Char) (i : Nat) (tws : List Char)
    (hws : ∀ c ∈ tws, c.isWhitespace = true)
    (hget : (linesOf md)[i]? = some ("# Title".data ++ tws))
    (hbefore : ∀ j, j < i → "# ".data.isPrefixOf (((linesOf md)[j]?).getD []) = false) :
    (parse_article md).title = "Title".data := by
  have hpref : "# ".data.isPrefixOf ("# Title".data ++ tws) = true := by
    rw [ List.isPrefixOf_iff_prefix]
    exact (List.prefix_append_right_inj "# ".data).mpr ⟨"Title".data ++ tws, by simp⟩
  have hfind := findFirstHeading_at (linesOf md) i ("# Title".data ++ tws) hget hpref hbefore
  unfold parse_article
  rw [hfind]
  rw [buildArticle_title]
  have hdrop : ("# Title".data ++ tws).drop 2 = "Title".data ++ tws := by
    rw [List.drop_append_of_le_length (by decide)]
    rfl
  rw [hdrop, pyStrip_append_ws "Title".data tws hws]
  decide

theorem C5_amended_witness :
    (parse_article "x\n# Title  \nbody".data).title = "Title".data :=
  C5_amended "x\n# Title  \nbody".data 1 "  ".data (by decide) (by decide) (by decide)

theorem findFirstHeading_none :
    ∀ (lines : List (List Char)),
      (∀ l ∈ lines, "# ".data.isPrefixOf l = false) →
      findFirstHeading lines = none := by
  intro lines
  induction lines with
  | nil => intro _; rfl
  | cons x rest ih =>
    intro h
    have hx := h x (by simp)
    have hre := ih (fun l hl => h l (by simp [hl]))
    simp [findFirstHeading, hx, hre]

/-- C9: when no line starts with `"# "`, `parse_article` returns an empty
title and computes the abstract and body from the line list with its first
line removed (`lines[1:]`), so the first line influences neither. -/
theorem C9_no_heading (md : List Char)
    (h : ∀ l ∈ linesOf md, "# ".data.isPrefixOf l = false) :
    parse_article md = buildArticle [] ((linesOf md).drop 1) ∧
    (parse_article md).title = [] := by
  have hnone := findFirstHeading_none (linesOf md) h
  constructor
  · unfold parse_article
    rw [hnone]
  · unfold parse_article
    rw [hnone, buildArticle_title]

theorem C9_no_heading_witness :
    parse_article "hello\nworld".data =
      buildArticle [] ((linesOf "hello\nworld".data).drop 1) ∧
    (parse_article "hello\nworld".data).title = [] :=
  C9_no_heading "hello\nworld".data (by decide)

theorem charOfNat_toNat (n : Nat) (h : n.isValidChar) : (Char.ofNat n).toNat = n := by
  unfold Char.ofNat
  rw [dif_pos h]
  rfl

theorem pyLower_idem (c : Char) : pyLower (pyLower c) = pyLower c := by
  unfold pyLower
  by_cases h : 65 ≤ c.toNat ∧ c.toNat ≤ 90
  · rw [if_pos h]
    have ht : (Char.ofNat (c.toNat + 32)).toNat = c.toNat + 32 :=
      charOfNat_toNat _ (Or.inl (by omega))
    rw [if_neg (by rw [ht]; omega)]
  · rw [if_neg h, if_neg h]

theorem keepChar_ne_hyphen (c : Char) (h : keepChar c = true) : c ≠ '-' := by
  intro he
  subst he
  exact absurd h (by decide)

theorem collapseAux_mem : ∀ (s : List Char) (b : Bool) (c : Char),
    c ∈ collapseAux b s → (keepChar c = true ∧ c ∈ s) ∨ c = '-' := by
  intro s
  induction s with
  | nil => intro b c h; simp [collapseAux] at h
  | cons a t ih =>
    intro b c h
    simp only [collapseAux] at h
    by_cases ha : keepChar a = true
    · rw [if_pos ha] at h
      rcases List.mem_cons.mp h with rfl | hm
      · exact Or.inl ⟨ha, List.mem_cons_self _ _⟩
      · rcases ih false c hm with ⟨h1, h2⟩ | h1
        · exact Or.inl ⟨h1, List.mem_cons_of_mem _ h2⟩
        · exact Or.inr h1
    · rw [if_neg ha] at h
      cases b with
      | true =>
        rw [if_pos rfl] at h
        rcases ih true c h with ⟨h1, h2⟩ | h1
        · exact Or.inl ⟨h1, List.mem_cons_of_mem _ h2⟩
        · exact Or.inr h1
      | false =>
        rw [if_neg (by simp)] at h
        rcases List.mem_cons.mp h with rfl | hm
        · exact Or.inr rfl
        · rcases ih true c hm with ⟨h1, h2⟩ | h1
          · exact Or.inl ⟨h1, List.mem_cons_of_mem _ h2⟩
          · exact Or.inr h1

theorem noHH_cons (a : Char) (t : List Char) (h : noHH (a :: t) = true) :
    noHH t = true := by
  cases t with
  | nil => rfl
  | cons x t' =>
    simp only [noHH, Bool.and_eq_true] at h
    exact h.2

theorem noHH_append_left : ∀ (u t : List Char), noHH (u ++ t) = true → noHH t = true := by
  intro u
  induction u with
  | nil => intro t h; exact h
  | cons a u' ih =>
    intro t h
    exact ih t (noHH_cons a (u' ++ t) (by simpa using h))

theorem noHH_append_right : ∀ (u t : List Char), noHH (u ++ t) = true → noHH u = true := by
  intro u
  induction u with
  | nil => intro t _; rfl
  | cons a u' ih =>
    intro t h
    cases u' with
    | nil => rfl
    | cons x u'' =>
      have h' : noHH (a :: x :: (u'' ++ t)) = true := by simpa using h
      simp only [noHH, Bool.and_eq_true] at h' ⊢
      exact ⟨h'.1, ih t (by simpa using h'.2)⟩

theorem collapseAux_true_head : ∀ (s : List Char),
    (collapseAux true s).head? ≠ some '-' := by
  intro s
  induction s with
  | nil => simp [collapseAux]
  | cons a t ih =>
    simp only [collapseAux]
    by_cases ha : keepChar a = true
    · rw [if_pos ha]
      intro hcontra
      simp at hcontra
      exact keepChar_ne_hyphen a ha hcontra
    · rw [if_neg ha, if_pos trivial]
      exact ih

theorem collapseAux_noHH : ∀ (s : List Char) (b : Bool),
    noHH (collapseAux b s) = true := by
  intro s
  induction s with
  | nil => intro b; rfl
  | cons a t ih =>
    intro b
    simp only [collapseAux]
    by_cases ha : keepChar a = true
    · rw [if_pos ha]
      cases hX : collapseAux false t with
      | nil => rfl
      | cons x X' =>
        have hx := ih false
        rw [hX] at hx
        have hane : a ≠ '-' := keepChar_ne_hyphen a ha
        simp only [noHH, Bool.and_eq_true]
        exact ⟨by simp [hane], hx⟩
    · rw [if_neg ha]
      cases b with
      | true => rw [if_pos rfl]; exact ih true
      | false =>
        rw [if_neg (by simp)]
        cases hX : collapseAux true t with
        | nil => rfl
        | cons x X' =>
          have hx := ih true
          rw [hX] at hx
          have hxne : x ≠ '-' := by
            have hh := collapseAux_true_head t
            rw [hX] at hh
            simpa using hh
          simp only [noHH, Bool.and_eq_true]
          exact ⟨by simp [hxne], hx⟩

theorem collapseAux_fixed : ∀ (n : Nat) (v : List Char), v.length ≤ n →
    (∀ c ∈ v, keepChar c = true ∨ c = '-') → noHH v = true →
    v.head? ≠ some '-' → ∀ b, collapseAux b v = v := by
  intro n
  induction n with
  | zero =>
    intro v hl _ _ _ b
    have hv : v = [] := List.length_eq_zero.mp (by omega)
    subst hv
    rfl
  | succ n ih =>
    intro v hl hall hnh hhd b
    cases v with
    | nil => rfl
    | cons c t =>
      have hc : keepChar c = true := by
        rcases hall c (List.mem_cons_self c t) with h | h
        · exact h
        · exact absurd (by subst h; rfl : (c :: t).head? = some '-') hhd
      simp only [collapseAux, if_pos hc]
      congr 1
      cases t with
      | nil => rfl
      | cons d t' =>
        by_cases hd : d = '-'
        · subst hd
          simp only [collapseAux, if_neg (by decide : ¬ keepChar '-' = true),
            if_neg (by simp : ¬ (false : Bool) = true)]
          congr 1
          have hnh2 : noHH ('-' :: t') = true := noHH_cons c _ hnh
          have hhd2 : t'.head? ≠ some '-' := by
            cases t' with
            | nil => simp
            | cons e t'' =>
              intro hco
              simp at hco
              subst hco
              simp [noHH] at hnh2
          exact ih t' (by simp at hl ⊢; omega)
            (fun x hx => hall x (List.mem_cons_of_mem _ (List.mem_cons_of_mem _ hx)))
            (noHH_cons _ _ hnh2) hhd2 true
        · exact ih (d :: t') (by simp at hl ⊢; omega)
            (fun x hx => hall x (List.mem_cons_of_mem _ hx))
            (noHH_cons _ _ hnh) (by simp [hd]) false

theorem dropWhile_head_not {α : Type} (p : α → Bool) (l : List α) (c : α)
    (h : (l.dropWhile p).head? = some c) : p c = false := by
  have hm := List.head?_dropWhile_not p l
  rw [h] at hm
  exact hm

theorem stripHyphens_decomp (s : List Char) :
    ∃ p q, s = p ++ stripHyphens s ++ q := by
  refine ⟨s.takeWhile (fun c => c == '-'),
    ((s.dropWhile (fun c => c == '-')).reverse.takeWhile (fun c => c == '-')).reverse, ?_⟩
  conv_lhs => rw [← List.takeWhile_append_dropWhile (fun c => c == '-') s]
  rw [List.append_assoc]
  congr 1
  unfold stripHyphens
  conv_lhs => rw [← List.reverse_reverse (s.dropWhile (fun c => c == '-'))]
  conv_lhs =>
    rw [← List.takeWhile_append_dropWhile (fun c => c == '-')
      (s.dropWhile (fun c => c == '-')).reverse]
  rw [List.reverse_append]

theorem stripHyphens_head (s : List Char) : (stripHyphens s).head? ≠ some '-' := by
  intro h
  unfold stripHyphens at h
  rw [List.head?_reverse] at h
  obtain ⟨pre, hpre⟩ :=
    List.dropWhile_suffix (l := (s.dropWhile (fun c => c == '-')).reverse)
      (fun c => c == '-')
  have hWne :
      (s.dropWhile (fun c => c == '-')).reverse.dropWhile (fun c => c == '-') ≠ [] := by
    intro hn
    rw [hn] at h
    simp at h
  have hlast : (s.dropWhile (fun c => c == '-')).reverse.getLast? = some '-' := by
    rw [← hpre, List.getLast?_append_of_ne_nil pre hWne]
    exact h
  rw [List.getLast?_reverse] at hlast
  have := dropWhile_head_not (fun c => c == '-') s '-' hlast
  simp at this

theorem stripHyphens_getLast (s : List Char) : (stripHyphens s).getLast? ≠ some '-' := by
  intro h
  unfold stripHyphens at h
  rw [List.getLast?_reverse] at h
  have := dropWhile_head_not (fun c => c == '-')
    (s.dropWhile (fun c => c == '-')).reverse '-' h
  simp at this

theorem map_pyLower_fixed (l : List Char) (h : ∀ c ∈ l, pyLower c = c) :
    l.map pyLower = l := by
  induction l with
  | nil => rfl
  | cons a t ih =>
    simp only [List.map_cons]
    rw [h a (by simp), ih (fun c hc => h c (by simp [hc]))]

theorem slug_core_mem (t : List Char) :
    ∀ c ∈ stripHyphens (collapseNonWord (t.map pyLower)),
      (keepChar c = true ∧ c ∈ t.map pyLower) ∨ c = '-' := by
  intro c hc
  obtain ⟨p, q, hd⟩ := stripHyphens_decomp (collapseNonWord (t.map pyLower))
  have hmem : c ∈ collapseNonWord (t.map pyLower) := by
    rw [hd]
    exact List.mem_append.mpr (Or.inl (List.mem_append.mpr (Or.inr hc)))
  exact collapseAux_mem _ false c hmem

theorem dropWhile_eq_self (p : Char → Bool) (l : List Char)
    (h : ∀ c, l.head? = some c → p c = false) : l.dropWhile p = l := by
  cases l with
  | nil => rfl
  | cons a t => rw [List.dropWhile_cons, if_neg (by simp [h a rfl])]

theorem stripHyphens_eq_self (l : List Char) (h1 : l.head? ≠ some '-')
    (h2 : l.getLast? ≠ some '-') : stripHyphens l = l := by
  have hh : ∀ c, l.head? = some c → (c == '-') = false := by
    intro c hc
    rw [hc] at h1
    simp only [ne_eq, Option.some.injEq] at h1
    simpa using h1
  have hg : ∀ c, l.reverse.head? = some c → (c == '-') = false := by
    intro c hc
    rw [List.head?_reverse] at hc
    rw [hc] at h2
    simp only [ne_eq, Option.some.injEq] at h2
    simpa using h2
  unfold stripHyphens
  rw [dropWhile_eq_self _ l hh, dropWhile_eq_self _ l.reverse hg, List.reverse_reverse]

set_option maxRecDepth 20000 in
/-- C3 counterexample: for the 61-character title of 59 `a`s, a comma and a
`b`, the slug is truncated at 60 characters right after a hyphen — it ENDS
in a hyphen — and `slugify` is not idempotent on this title. -/
theorem C3_slugify_cex :
    slugify (List.replicate 59 'a' ++ [',', 'b']) = List.replicate 59 'a' ++ ['-'] ∧
    (slugify (List.replicate 59 'a' ++ [',', 'b'])).getLast? = some '-' ∧
    slugify (slugify (List.replicate 59 'a' ++ [',', 'b'])) ≠
      slugify (List.replicate 59 'a' ++ [',', 'b']) := by
  exact ⟨by decide, by decide, by decide⟩

/-- C3 amended: `slugify` always yields only word characters, CJK
ideographs and hyphens, never starts with a hyphen, and has length at most
60; when the hyphen-stripped slug fits in 60 characters (no truncation), it
also has no trailing hyphen and `slugify` is idempotent on the title.
(The 60-character truncation, applied after the strip, can leave a trailing
hyphen and break idempotence — see the counterexample.) -/
theorem C3_slugify_amended (t : List Char) :
    (∀ c ∈ slugify t, keepChar c = true ∨ c = '-')
    ∧ (slugify t).head? ≠ some '-'
    ∧ (slugify t).length ≤ 60
    ∧ ((stripHyphens (collapseNonWord (t.map pyLower))).length ≤ 60 →
        (slugify t).getLast? ≠ some '-' ∧ slugify (slugify t) = slugify t) := by
  refine ⟨?_, ?_, ?_, ?_⟩
  · intro c hc
    have hc' : c ∈ stripHyphens (collapseNonWord (t.map pyLower)) :=
      List.take_subset 60 _ hc
    rcases slug_core_mem t c hc' with ⟨h1, _⟩ | h1
    · exact Or.inl h1
    · exact Or.inr h1
  · unfold slugify
    rw [List.head?_take, if_neg (by omega)]
    exact stripHyphens_head _
  · unfold slugify
    exact List.length_take_le 60 _
  · intro hle
    have heq : slugify t = stripHyphens (collapseNonWord (t.map pyLower)) := by
      unfold slugify
      exact List.take_of_length_le hle
    constructor
    · rw [heq]
      exact stripHyphens_getLast _
    · rw [heq]
      have hall : ∀ c ∈ stripHyphens (collapseNonWord (t.map pyLower)),
          keepChar c = true ∨ c = '-' := fun c hc =>
        (slug_core_mem t c hc).imp (fun h => h.1) id
      have hmap : (stripHyphens (collapseNonWord (t.map pyLower))).map pyLower =
          stripHyphens (collapseNonWord (t.map pyLower)) := by
        apply map_pyLower_fixed
        intro c hc
        rcases slug_core_mem t c hc with ⟨-, h2⟩ | h2
        · obtain ⟨x, -, hx⟩ := List.mem_map.mp h2
          rw [← hx]
          exact pyLower_idem x
        · rw [h2]
          decide
      have hnhu : noHH (stripHyphens (collapseNonWord (t.map pyLower))) = true := by
        obtain ⟨p, q, hd⟩ := stripHyphens_decomp (collapseNonWord (t.map pyLower))
        have hC : noHH (collapseNonWord (t.map pyLower)) = true := collapseAux_noHH _ false
        rw [hd, List.append_assoc] at hC
        exact noHH_append_right _ _ (noHH_append_left p _ hC)
      have hcol : collapseNonWord (stripHyphens (collapseNonWord (t.map pyLower))) =
          stripHyphens (collapseNonWord (t.map pyLower)) :=
        collapseAux_fixed _ _ le_rfl hall hnhu (stripHyphens_head _) false
      have hstr : stripHyphens (stripHyphens (collapseNonWord (t.map pyLower))) =
          stripHyphens (collapseNonWord (t.map pyLower)) :=
        stripHyphens_eq_self _ (stripHyphens_head _) (stripHyphens_getLast _)
      unfold slugify
      rw [hmap, hcol, hstr]
      exact List.take_of_length_le hle

set_option maxRecDepth 20000 in
theorem C3_slugify_amended_witness :
    (slugify "Hello, World! 测试".data).getLast? ≠ some '-' ∧
    slugify (slugify "Hello, World! 测试".data) = slugify "Hello, World! 测试".data :=
  (C3_slugify_amended "Hello, World! 测试".data).2.2.2 (by decide)

theorem pyLower_fixed_of_not_keep (x : Char) (h : keepChar x = false) :
    pyLower x = x := by
  unfold pyLower
  rw [if_neg ?hne]
  intro hrange
  have hup : x.isUpper = true := by
    simp only [Char.isUpper, Bool.and_eq_true, decide_eq_true_eq]
    exact ⟨hrange.1, hrange.2⟩
  have : keepChar x = true := by
    simp [keepChar, isWordChar, Char.isAlphanum, Char.isAlpha, hup]
  rw [this] at h
  exact Bool.true_eq_false.mp h

theorem collapseAux_all_nonkeep : ∀ (s : List Char),
    (∀ c ∈ s, keepChar c = false) →
    collapseAux true s = [] ∧
      (collapseAux false s = [] ∨ collapseAux false s = ['-']) := by
  intro s
  induction s with
  | nil => exact fun _ => ⟨rfl, Or.inl rfl⟩
  | cons a t ih =>
    intro h
    have ha : keepChar a = false := h a (List.mem_cons_self a t)
    obtain ⟨ih1, -⟩ := ih (fun c hc => h c (List.mem_cons_of_mem _ hc))
    constructor
    · simp only [collapseAux]
      rw [if_neg (by rw [ha]; decide), if_pos trivial]
      exact ih1
    · right
      simp only [collapseAux]
      rw [if_neg (by rw [ha]; decide), if_neg (by decide), ih1]

theorem readAttr_ne_nil (s idv rest : List Char)
    (h : readAttr s = some (idv, rest)) : idv ≠ [] := by
  unfold readAttr at h
  cases hq : splitAtQuote s with
  | none => rw [hq] at h; simp at h
  | some p =>
    obtain ⟨pid, prest⟩ := p
    rw [hq] at h
    dsimp only at h
    by_cases hc : pid ≠ [] ∧ prest.head? = some '>'
    · rw [if_pos hc] at h
      simp only [Option.some.injEq, Prod.mk.injEq] at h
      rw [← h.1]
      exact hc.1
    · rw [if_neg hc] at h
      simp at h

theorem extractTocF_id_ne : ∀ (fuel : Nat) (html : List Char) (e : TocEntry),
    e ∈ extractTocF fuel html → e.id ≠ [] := by
  intro fuel
  induction fuel with
  | zero => intro html e h; simp [extractTocF] at h
  | succ n ih =>
    intro html e h
    cases html with
    | nil => simp [extractTocF] at h
    | cons c rest =>
      simp only [extractTocF] at h
      by_cases ho : isTocOpen (c :: rest) = true
      · rw [if_pos ho] at h
        cases hr : readAttr ((c :: rest).drop 8) with
        | none => rw [hr] at h; exact ih rest e h
        | some p =>
          obtain ⟨idv, s1⟩ := p
          rw [hr] at h
          dsimp only at h
          cases hf : findClose s1 with
          | none => rw [hf] at h; exact ih rest e h
          | some q =>
            obtain ⟨content, after⟩ := q
            rw [hf] at h
            rcases List.mem_cons.mp h with rfl | hm
            · exact readAttr_ne_nil _ _ _ hr
            · exact ih after e hm
      · rw [if_neg ho] at h
        exact ih rest e h

/-- C10: a heading whose tag-stripped text has no word character and no CJK
ideograph receives the empty anchor slug (`id=""`), and `extract_toc`'s
pattern `[^"]+` rejects empty ids, so every extracted `TocEntry` carries a
non-empty anchor id. -/
theorem C10_empty_anchor :
    (∀ content : List Char, (∀ c ∈ stripTags content, keepChar c = false) →
      headingSlug content = [])
    ∧ (∀ (html : List Char) (e : TocEntry), e ∈ extract_toc html → e.id ≠ []) := by
  constructor
  · intro content h
    unfold headingSlug
    have h2 : ∀ c ∈ (stripTags content).map pyLower, keepChar c = false := by
      intro c hc
      obtain ⟨x, hx1, hx2⟩ := List.mem_map.mp hc
      have hx := h x hx1
      rw [← hx2, pyLower_fixed_of_not_keep x hx]
      exact hx
    obtain ⟨-, h3⟩ := collapseAux_all_nonkeep _ h2
    unfold collapseNonWord
    rcases h3 with h3 | h3 <;> rw [h3] <;> decide
  · intro html e h
    exact extractTocF_id_ne html.length html e h

theorem C10_empty_anchor_witness :
    headingSlug "*※*".data = [] ∧
    (⟨"h2".data, "x".data, "T".data⟩ : TocEntry).id ≠ [] :=
  ⟨C10_empty_anchor.1 "*※*".data (by decide),
    C10_empty_anchor.2 "<h2 id=\"x\">T</h2>".data ⟨"h2".data, "x".data, "T".data⟩
      (by decide)⟩

theorem addIdsF_nil : ∀ n, addIdsF n [] = [] := by
  intro n
  cases n <;> rfl

theorem goodScanF_nil : ∀ n, goodScanF n [] = true := by
  intro n
  cases n <;> rfl

theorem isOpenTag_head (s : List Char) (h : s.head? ≠ some '<') :
    isOpenTag s = false := by
  cases s with
  | nil => rfl
  | cons c rest =>
    have hc : c ≠ '<' := by
      intro he
      exact h (by subst he; rfl)
    have hb : ('<' == c) = false := by
      simp only [beq_eq_false_iff_ne, ne_eq]
      exact fun hh => hc hh.symm
    simp [isOpenTag, List.isPrefixOf, hb]

theorem isOpenTag_decomp (s : List Char) (h : isOpenTag s = true) :
    ∃ x s4, (x = '2' ∨ x = '3') ∧ s = '<' :: 'h' :: x :: '>' :: s4 ∧
      tagNameAt s = ['h', x] := by
  simp only [isOpenTag, Bool.or_eq_true] at h
  by_cases h2 : "<h2>".data.isPrefixOf s = true
  · obtain ⟨t, ht⟩ := List.isPrefixOf_iff_prefix.mp h2
    subst ht
    exact ⟨'2', t, Or.inl rfl, rfl, by unfold tagNameAt; rw [if_pos h2]⟩
  · have h3 : "<h3>".data.isPrefixOf s = true := by
      rcases h with h | h
      · exact absurd h h2
      · exact h
    obtain ⟨t, ht⟩ := List.isPrefixOf_iff_prefix.mp h3
    subst ht
    refine ⟨'3', t, Or.inr rfl, rfl, ?_⟩
    unfold tagNameAt
    rw [if_neg h2]

theorem findClose_decomp : ∀ (s ct aft : List Char), findClose s = some (ct, aft) →
    ∃ cl, (cl = "</h2>".data ∨ cl = "</h3>".data) ∧ s = ct ++ cl ++ aft := by
  intro s
  induction s with
  | nil => intro ct aft h; simp [findClose] at h
  | cons c rest ih =>
    intro ct aft h
    simp only [findClose] at h
    by_cases hcl : ("</h2>".data.isPrefixOf (c :: rest) ||
        "</h3>".data.isPrefixOf (c :: rest)) = true
    · rw [if_pos hcl] at h
      simp only [Option.some.injEq, Prod.mk.injEq] at h
      obtain ⟨h1, h2⟩ := h
      subst h1
      rcases Bool.or_eq_true _ _ |>.mp hcl with hp | hp
      · obtain ⟨t, ht⟩ := List.isPrefixOf_iff_prefix.mp hp
        refine ⟨"</h2>".data, Or.inl rfl, ?_⟩
        rw [← h2, ← ht]
        rfl
      · obtain ⟨t, ht⟩ := List.isPrefixOf_iff_prefix.mp hp
        refine ⟨"</h3>".data, Or.inr rfl, ?_⟩
        rw [← h2, ← ht]
        rfl
    · rw [if_neg hcl] at h
      cases hr : findClose rest with
      | none => rw [hr] at h; simp at h
      | some p =>
        obtain ⟨ct', aft'⟩ := p
        rw [hr] at h
        simp only [Option.some.injEq, Prod.mk.injEq] at h
        obtain ⟨h1, h2⟩ := h
        obtain ⟨cl, hcl2, hdec⟩ := ih ct' aft' hr
        subst h2
        rw [← h1, hdec]
        exact ⟨cl, hcl2, rfl⟩

theorem isCloseAt_false_of_cc (s : List Char) (h : containsCloseTag s = false) :
    ("</h2>".data.isPrefixOf s || "</h3>".data.isPrefixOf s) = false := by
  cases s with
  | nil => rfl
  | cons c rest =>
    simp only [containsCloseTag, Bool.or_eq_false_iff] at h
    simp [h.1.1, h.1.2]

theorem cc_tail (c : Char) (rest : List Char)
    (h : containsCloseTag (c :: rest) = false) : containsCloseTag rest = false := by
  simp only [containsCloseTag, Bool.or_eq_false_iff] at h
  exact h.2

theorem findClose_none_of_cc : ∀ (s : List Char), containsCloseTag s = false →
    findClose s = none := by
  intro s
  induction s with
  | nil => intro _; rfl
  | cons c rest ih =>
    intro h
    simp only [findClose]
    rw [if_neg (by rw [isCloseAt_false_of_cc _ h]; exact fun hc => nomatch hc)]
    rw [ih (cc_tail c rest h)]

theorem containsOpen_tail (c : Char) (rest : List Char)
    (h : containsOpenTag (c :: rest) = false) : containsOpenTag rest = false := by
  simp only [containsOpenTag, Bool.or_eq_false_iff] at h
  exact h.2

theorem containsOpen_suffix : ∀ (X1 X2 : List Char),
    containsOpenTag (X1 ++ X2) = false → isOpenTag X2 = false := by
  intro X1
  induction X1 with
  | nil =>
    intro X2 h
    cases X2 with
    | nil => rfl
    | cons c rest =>
      simp only [List.nil_append, containsOpenTag, Bool.or_eq_false_iff] at h
      exact h.1
  | cons a X1' ih =>
    intro X2 h
    exact ih X2 (containsOpen_tail a _ (by simpa using h))

theorem no_lt_containsOpen : ∀ (X : List Char), (∀ c ∈ X, c ≠ '<') →
    containsOpenTag X = false := by
  intro X
  induction X with
  | nil => intro _; rfl
  | cons c rest ih =>
    intro h
    simp only [containsOpenTag, Bool.or_eq_false_iff]
    constructor
    · exact isOpenTag_head _ (by
        intro hc
        simp only [List.head?_cons, Option.some.injEq] at hc
        exact h c (List.mem_cons_self _ _) hc)
    · exact ih (fun x hx => h x (List.mem_cons_of_mem _ hx))

theorem isPrefixOf_append_of_le (p s Y : List Char) (hlen : p.length ≤ s.length) :
    p.isPrefixOf (s ++ Y) = p.isPrefixOf s := by
  cases hps : p.isPrefixOf s with
  | true =>
    rw [ List.isPrefixOf_iff_prefix] at hps ⊢
    exact hps.trans (List.prefix_append s Y)
  | false =>
    have hno : ¬ p.isPrefixOf (s ++ Y) = true := by
      intro hc
      rw [ List.isPrefixOf_iff_prefix, List.prefix_iff_eq_take] at hc
      rw [List.take_append_of_le_length hlen] at hc
      have hps2 : p.isPrefixOf s = true := by
        rw [ List.isPrefixOf_iff_prefix, List.prefix_iff_eq_take]
        exact hc
      rw [hps2] at hps
      exact nomatch hps
    simp only [Bool.not_eq_true] at hno
    exact hno

theorem isOpenTag_append (s Y : List Char) (hlen : 4 ≤ s.length) :
    isOpenTag (s ++ Y) = isOpenTag s := by
  unfold isOpenTag
  rw [isPrefixOf_append_of_le _ _ _ (by simpa using hlen),
    isPrefixOf_append_of_le _ _ _ (by simpa using hlen)]

theorem findClose_len (s ct aft : List Char) (h : findClose s = some (ct, aft)) :
    s.length = ct.length + 5 + aft.length := by
  obtain ⟨cl, hcl, hdec⟩ := findClose_decomp s ct aft h
  have hcl5 : cl.length = 5 := by rcases hcl with rfl | rfl <;> rfl
  rw [hdec]
  simp [hcl5]
  omega

theorem addIdsF_fuel : ∀ (L : Nat) (s : List Char) (n m : Nat),
    s.length ≤ L → s.length ≤ n → s.length ≤ m → addIdsF n s = addIdsF m s := by
  intro L
  induction L with
  | zero =>
    intro s n m hL _ _
    have hs : s = [] := List.length_eq_zero.mp (by omega)
    subst hs
    rw [addIdsF_nil, addIdsF_nil]
  | succ L ih =>
    intro s n m hL hn hm
    cases s with
    | nil => rw [addIdsF_nil, addIdsF_nil]
    | cons c rest =>
      obtain ⟨n', rfl⟩ : ∃ n', n = n' + 1 := ⟨n - 1, by simp at hn; omega⟩
      obtain ⟨m', rfl⟩ : ∃ m', m = m' + 1 := ⟨m - 1, by simp at hm; omega⟩
      simp only [addIdsF]
      split
      · split
        next content after heq =>
          have hcl := findClose_len _ _ _ heq
          simp only [List.drop_succ_cons, List.length_drop] at hcl
          simp only [List.length_cons] at hL hn hm
          congr 1
          exact ih after n' m' (by omega) (by omega) (by omega)
        next heq =>
          congr 1
          exact ih rest n' m' (by simp at hL; omega) (by simp at hn; omega)
            (by simp at hm; omega)
      · congr 1
        exact ih rest n' m' (by simp at hL; omega) (by simp at hn; omega)
          (by simp at hm; omega)

theorem goodScanF_fuel : ∀ (L : Nat) (s : List Char) (n m : Nat),
    s.length ≤ L → s.length ≤ n → s.length ≤ m → goodScanF n s = goodScanF m s := by
  intro L
  induction L with
  | zero =>
    intro s n m hL _ _
    have hs : s = [] := List.length_eq_zero.mp (by omega)
    subst hs
    rw [goodScanF_nil, goodScanF_nil]
  | succ L ih =>
    intro s n m hL hn hm
    cases s with
    | nil => rw [goodScanF_nil, goodScanF_nil]
    | cons c rest =>
      obtain ⟨n', rfl⟩ : ∃ n', n = n' + 1 := ⟨n - 1, by simp at hn; omega⟩
      obtain ⟨m', rfl⟩ : ∃ m', m = m' + 1 := ⟨m - 1, by simp at hm; omega⟩
      simp only [goodScanF]
      split
      · split
        next content after heq =>
          have hcl := findClose_len _ _ _ heq
          simp only [List.drop_succ_cons, List.length_drop] at hcl
          simp only [List.length_cons] at hL hn hm
          congr 1
          exact ih after n' m' (by omega) (by omega) (by omega)
        next heq =>
          exact ih rest n' m' (by simp at hL; omega) (by simp at hn; omega)
            (by simp at hm; omega)
      · exact ih rest n' m' (by simp at hL; omega) (by simp at hn; omega)
          (by simp at hm; omega)

theorem addIds_cons_open_some (c : Char) (rest content after : List Char)
    (ho : isOpenTag (c :: rest) = true)
    (hf : findClose ((c :: rest).drop 4) = some (content, after)) :
    addIds (c :: rest) = headingElem (tagNameAt (c :: rest)) content ++ addIds after := by
  have hcl := findClose_len _ _ _ hf
  simp only [List.drop_succ_cons, List.length_drop] at hcl
  unfold addIds
  simp only [List.length_cons, addIdsF]
  rw [if_pos ho, hf]
  dsimp only
  congr 1
  exact addIdsF_fuel rest.length after rest.length after.length (by omega) (by omega) le_rfl

theorem addIds_cons_open_none (c : Char) (rest : List Char)
    (ho : isOpenTag (c :: rest) = true)
    (hf : findClose ((c :: rest).drop 4) = none) :
    addIds (c :: rest) = c :: addIds rest := by
  unfold addIds
  simp only [List.length_cons, addIdsF]
  rw [if_pos ho, hf]

theorem addIds_cons_notopen (c : Char) (rest : List Char)
    (ho : isOpenTag (c :: rest) = false) :
    addIds (c :: rest) = c :: addIds rest := by
  unfold addIds
  simp only [List.length_cons, addIdsF]
  rw [if_neg (by rw [ho]; exact fun hc => nomatch hc)]

theorem goodScan_cons_open_some (c : Char) (rest content after : List Char)
    (ho : isOpenTag (c :: rest) = true)
    (hf : findClose ((c :: rest).drop 4) = some (content, after)) :
    goodScan (c :: rest) = (!containsOpenTag content && goodScan after) := by
  have hcl := findClose_len _ _ _ hf
  simp only [List.drop_succ_cons, List.length_drop] at hcl
  unfold goodScan
  simp only [List.length_cons, goodScanF]
  rw [if_pos ho, hf]
  dsimp only
  congr 1
  exact goodScanF_fuel rest.length after rest.length after.length (by omega) (by omega) le_rfl

theorem goodScan_cons_open_none (c : Char) (rest : List Char)
    (ho : isOpenTag (c :: rest) = true)
    (hf : findClose ((c :: rest).drop 4) = none) :
    goodScan (c :: rest) = goodScan rest := by
  unfold goodScan
  simp only [List.length_cons, goodScanF]
  rw [if_pos ho, hf]

theorem goodScan_cons_notopen (c : Char) (rest : List Char)
    (ho : isOpenTag (c :: rest) = false) :
    goodScan (c :: rest) = goodScan rest := by
  unfold goodScan
  simp only [List.length_cons, goodScanF]
  rw [if_neg (by rw [ho]; exact fun hc => nomatch hc)]

theorem cc_of_findClose_none : ∀ (u : List Char), findClose u = none →
    containsCloseTag u = false := by
  intro u
  induction u with
  | nil => intro _; rfl
  | cons c rest ih =>
    intro h
    simp only [findClose] at h
    by_cases hcl : ("</h2>".data.isPrefixOf (c :: rest) ||
        "</h3>".data.isPrefixOf (c :: rest)) = true
    · rw [if_pos hcl] at h
      simp at h
    · rw [if_neg hcl] at h
      have hrest : findClose rest = none := by
        cases hr : findClose rest with
        | none => rfl
        | some p =>
          obtain ⟨a, b⟩ := p
          rw [hr] at h
          simp at h
      simp only [Bool.or_eq_true, not_or, Bool.not_eq_true] at hcl
      simp only [containsCloseTag, Bool.or_eq_false_iff]
      exact ⟨⟨hcl.1, hcl.2⟩, ih hrest⟩

theorem cc_drop : ∀ (k : Nat) (s : List Char), containsCloseTag s = false →
    containsCloseTag (s.drop k) = false := by
  intro k
  induction k with
  | zero => intro s h; exact h
  | succ k ih =>
    intro s h
    cases s with
    | nil => exact h
    | cons c rest =>
      rw [List.drop_succ_cons]
      exact ih rest (cc_tail _ _ h)

theorem addIdsF_id_of_cc : ∀ (n : Nat) (s : List Char), containsCloseTag s = false →
    addIdsF n s = s := by
  intro n
  induction n with
  | zero => intro s _; cases s <;> rfl
  | succ n ih =>
    intro s hcc
    cases s with
    | nil => rfl
    | cons c rest =>
      have hfc : findClose ((c :: rest).drop 4) = none := by
        apply findClose_none_of_cc
        exact cc_drop 4 (c :: rest) hcc
      simp only [addIdsF]
      split
      · rw [hfc]
        dsimp only
        rw [ih rest (cc_tail _ _ hcc)]
      · rw [ih rest (cc_tail _ _ hcc)]

theorem addIdsF_take3 : ∀ (n : Nat) (s : List Char) (k : Nat), k ≤ 3 →
    (addIdsF n s).take k = s.take k := by
  intro n
  induction n with
  | zero => intro s k _; cases s <;> rfl
  | succ n ih =>
    intro s k hk
    cases s with
    | nil => rfl
    | cons c rest =>
      simp only [addIdsF]
      split
      next ho =>
        split
        next content after heq =>
          obtain ⟨x, s4, hx, hs, htag⟩ := isOpenTag_decomp _ ho
          rw [htag]
          have hcr : c :: rest = '<' :: 'h' :: x :: '>' :: s4 := hs
          rw [hcr]
          interval_cases k <;> simp [headingElem]
        next heq =>
          cases k with
          | zero => rfl
          | succ k' =>
            simp only [List.take_succ_cons]
            rw [ih rest k' (by omega)]
      next ho =>
        cases k with
        | zero => rfl
        | succ k' =>
          simp only [List.take_succ_cons]
          rw [ih rest k' (by omega)]

theorem addIds_take3 (s : List Char) (k : Nat) (hk : k ≤ 3) :
    (addIds s).take k = s.take k :=
  addIdsF_take3 s.length s k hk

theorem isPrefixOf_congr_take (p l₁ l₂ : List Char)
    (h : l₁.take p.length = l₂.take p.length) :
    p.isPrefixOf l₁ = p.isPrefixOf l₂ := by
  have e1 : p.isPrefixOf l₁ = true ↔ p = l₁.take p.length := by
    rw [ List.isPrefixOf_iff_prefix, List.prefix_iff_eq_take]
  have e2 : p.isPrefixOf l₂ = true ↔ p = l₂.take p.length := by
    rw [ List.isPrefixOf_iff_prefix, List.prefix_iff_eq_take]
  rw [Bool.eq_iff_iff, e1, e2, h]

theorem isOpenTag_cons_congr (c : Char) (X Y : List Char) (h : X.take 3 = Y.take 3) :
    isOpenTag (c :: X) = isOpenTag (c :: Y) := by
  unfold isOpenTag
  rw [isPrefixOf_congr_take "<h2>".data (c :: X) (c :: Y)
      (by show c :: X.take 3 = c :: Y.take 3; rw [h]),
    isPrefixOf_congr_take "<h3>".data (c :: X) (c :: Y)
      (by show c :: X.take 3 = c :: Y.take 3; rw [h])]

theorem cc_false_of_open_no_close (c : Char) (rest : List Char)
    (ho : isOpenTag (c :: rest) = true)
    (hf : findClose ((c :: rest).drop 4) = none) :
    containsCloseTag (c :: rest) = false := by
  obtain ⟨x, s4, hx, hs, -⟩ := isOpenTag_decomp _ ho
  have hdrop : (c :: rest).drop 4 = s4 := by rw [hs]; rfl
  rw [hdrop] at hf
  have h4 : containsCloseTag s4 = false := cc_of_findClose_none s4 hf
  rw [hs]
  rcases hx with rfl | rfl <;>
    simp [containsCloseTag, List.isPrefixOf, h4]

theorem suffix3_head (X : List Char) (h3 : ∀ c ∈ X.drop (X.length - 3), c ≠ '<') :
    ∀ X1 X2, X = X1 ++ X2 → X2 ≠ [] → X2.length ≤ 3 → X2.head? ≠ some '<' := by
  intro X1 X2 hsplit hne hlen hc
  have hx2 : X2 = X.drop X1.length := by
    rw [hsplit, List.drop_left]
  have hdr : X2 = (X.drop (X.length - 3)).drop (X1.length - (X.length - 3)) := by
    rw [List.drop_drop]
    rw [hx2]
    congr 1
    have : X.length = X1.length + X2.length := by rw [hsplit]; simp
    omega
  have hmem : '<' ∈ X2 := List.mem_of_mem_head? (by rw [hc]; rfl)
  rw [hdr] at hmem
  exact h3 '<' (List.drop_subset _ _ hmem) rfl

theorem isOpen_short_append (X2 Y : List Char) (hne : X2 ≠ []) (hlen : X2.length ≤ 3)
    (hy : ∀ y, Y.head? = some y → y ≠ 'h' ∧ y ≠ '2' ∧ y ≠ '3' ∧ y ≠ '>') :
    isOpenTag (X2 ++ Y) = false := by
  rw [← Bool.not_eq_true]
  intro hc
  obtain ⟨x, s4, hx, hs, -⟩ := isOpenTag_decomp _ hc
  match X2, hne, hlen, hs with
  | [a], _, _, hs =>
    have hy0 : Y.head? = some 'h' := by
      have : a :: Y = '<' :: 'h' :: x :: '>' :: s4 := hs
      rw [List.cons.injEq] at this
      rw [this.2]
      rfl
    exact (hy 'h' hy0).1 rfl
  | [a, b], _, _, hs =>
    have : a :: b :: Y = '<' :: 'h' :: x :: '>' :: s4 := hs
    rw [List.cons.injEq, List.cons.injEq] at this
    have hy0 : Y.head? = some x := by rw [this.2.2]; rfl
    rcases hx with rfl | rfl
    · exact (hy '2' hy0).2.1 rfl
    · exact (hy '3' hy0).2.2.1 rfl
  | [a, b, d], _, _, hs =>
    have : a :: b :: d :: Y = '<' :: 'h' :: x :: '>' :: s4 := hs
    rw [List.cons.injEq, List.cons.injEq, List.cons.injEq] at this
    have hy0 : Y.head? = some '>' := by rw [this.2.2.2]; rfl
    exact (hy '>' hy0).2.2.2 rfl

theorem containsOpen_append (X Y : List Char)
    (hX : containsOpenTag X = false)
    (hY : containsOpenTag Y = false)
    (hcross : ∀ X1 X2, X = X1 ++ X2 → X2 ≠ [] → X2.length ≤ 3 →
        isOpenTag (X2 ++ Y) = false) :
    containsOpenTag (X ++ Y) = false := by
  induction X with
  | nil => exact hY
  | cons a X' ih =>
    have hstep : containsOpenTag (X' ++ Y) = false :=
      ih (containsOpen_tail _ _ hX)
        (fun X1 X2 hsp hne hl => hcross (a :: X1) X2 (by rw [hsp]; rfl) hne hl)
    have hhead : isOpenTag ((a :: X') ++ Y) = false := by
      by_cases hl : (a :: X').length ≤ 3
      · exact hcross [] (a :: X') rfl (by simp) hl
      · rw [List.cons_append]
        rw [show a :: (X' ++ Y) = (a :: X') ++ Y from rfl]
        rw [isOpenTag_append (a :: X') Y (by simp at hl ⊢; omega)]
        exact containsOpen_suffix [] (a :: X') (by simpa using hX)
    simp only [List.cons_append, containsOpenTag, Bool.or_eq_false_iff]
    exact ⟨by simpa using hhead, hstep⟩

theorem addIds_append_inert : ∀ (A B : List Char),
    (∀ A1 A2, A = A1 ++ A2 → A2 ≠ [] → isOpenTag (A2 ++ B) = false) →
    addIds (A ++ B) = A ++ addIds B := by
  intro A
  induction A with
  | nil => intro B _; rfl
  | cons a A' ih =>
    intro B h
    have ho : isOpenTag (a :: (A' ++ B)) = false := h [] (a :: A') rfl (by simp)
    rw [List.cons_append, addIds_cons_notopen a (A' ++ B) ho,
      ih B (fun A1 A2 hsp hne => h (a :: A1) A2 (by rw [hsp]; rfl) hne)]
    rfl

theorem headingSlug_no_lt (content : List Char) :
    ∀ c ∈ headingSlug content, c ≠ '<' := by
  intro c hc he
  subst he
  rcases slug_core_mem (stripTags content) '<' hc with ⟨hk, -⟩ | h1
  · exact absurd hk (by decide)
  · exact absurd h1 (by decide)

theorem headingElem_decomp (x : Char) (content : List Char) :
    headingElem ['h', x] content =
      (['<', 'h', x] ++ " id=\"".data) ++
        ((headingSlug content ++ "\">".data) ++
          (content ++ (['<', '/'] ++ (['h', x] ++ ['>'])))) := by
  simp [headingElem, List.append_assoc]

theorem headingElem_containsOpen (x : Char) (content : List Char)
    (hx : x = '2' ∨ x = '3') (hco : containsOpenTag content = false) :
    containsOpenTag (headingElem ['h', x] content) = false := by
  rw [headingElem_decomp]
  have hback : containsOpenTag (['<', '/'] ++ (['h', x] ++ ['>'])) = false := by
    rcases hx with rfl | rfl <;> decide
  have hcb : containsOpenTag (content ++ (['<', '/'] ++ (['h', x] ++ ['>']))) = false := by
    apply containsOpen_append content _ hco hback
    intro X1 X2 hsp hne hlen
    apply isOpen_short_append X2 _ hne hlen
    intro y hy
    have hy' : y = '<' := by
      simp only [List.cons_append, List.head?_cons, Option.some.injEq] at hy
      exact hy.symm
    subst hy'
    exact ⟨by decide, by decide, by decide, by decide⟩
  have hmidchars : ∀ c ∈ headingSlug content ++ "\">".data, c ≠ '<' := by
    intro c hc
    rcases List.mem_append.mp hc with h1 | h1
    · exact headingSlug_no_lt content c h1
    · intro he
      subst he
      exact (by decide : ¬ '<' ∈ "\">".data) h1
  have hmid : containsOpenTag (headingSlug content ++ "\">".data) = false :=
    no_lt_containsOpen _ hmidchars
  have hmc : containsOpenTag ((headingSlug content ++ "\">".data) ++
      (content ++ (['<', '/'] ++ (['h', x] ++ ['>'])))) = false := by
    apply containsOpen_append _ _ hmid hcb
    intro X1 X2 hsp hne hlen
    cases X2 with
    | nil => exact absurd rfl hne
    | cons a X2' =>
      apply isOpenTag_head
      have ha : a ∈ headingSlug content ++ "\">".data := by
        rw [hsp]
        exact List.mem_append_right X1 (List.mem_cons_self a X2')
      intro hhd
      simp only [List.cons_append, List.head?_cons, Option.some.injEq] at hhd
      exact hmidchars a ha hhd
  apply containsOpen_append (['<', 'h', x] ++ " id=\"".data) _ ?hfront hmc ?hfcross
  case hfront => rcases hx with rfl | rfl <;> decide
  case hfcross =>
    intro X1 X2 hsp hne hlen
    cases X2 with
    | nil => exact absurd rfl hne
    | cons a X2' =>
      apply isOpenTag_head
      intro hhd
      simp only [List.cons_append, List.head?_cons, Option.some.injEq] at hhd
      subst hhd
      have hsf := suffix3_head (['<', 'h', x] ++ " id=\"".data)
        (by rcases hx with rfl | rfl <;> decide) X1 ('<' :: X2') hsp (by simp) hlen
      exact hsf rfl

theorem headingElem_last3 (x : Char) (content : List Char) (hx : x = '2' ∨ x = '3') :
    ∀ c ∈ (headingElem ['h', x] content).drop
      ((headingElem ['h', x] content).length - 3), c ≠ '<' := by
  have hdec : headingElem ['h', x] content =
      ("<".data ++ ['h', x] ++ " id=\"".data ++ headingSlug content ++ "\">".data ++
        content ++ "</".data) ++ ['h', x, '>'] := by
    simp [headingElem, List.append_assoc]
  rw [hdec, List.length_append]
  have h3 : (['h', x, '>'] : List Char).length = 3 := rfl
  rw [h3, Nat.add_sub_cancel, List.drop_left]
  intro c hc
  simp only [List.mem_cons, List.not_mem_nil, or_false] at hc
  rcases hc with rfl | rfl | rfl
  · decide
  · rcases hx with rfl | rfl <;> decide
  · decide

theorem headingElem_inert (x : Char) (content B : List Char) (hx : x = '2' ∨ x = '3')
    (hco : containsOpenTag content = false) :
    ∀ A1 A2, headingElem ['h', x] content = A1 ++ A2 → A2 ≠ [] →
      isOpenTag (A2 ++ B) = false := by
  intro A1 A2 hsp hne
  by_cases hlen : A2.length ≤ 3
  · have hhd := suffix3_head _ (headingElem_last3 x content hx) A1 A2 hsp hne hlen
    cases A2 with
    | nil => exact absurd rfl hne
    | cons a A2' =>
      apply isOpenTag_head
      intro hc
      simp only [List.cons_append, List.head?_cons, Option.some.injEq] at hc
      subst hc
      exact hhd rfl
  · rw [isOpenTag_append A2 B (by omega)]
    have hE := headingElem_containsOpen x content hx hco
    rw [hsp] at hE
    exact containsOpen_suffix A1 A2 hE

theorem addIds_idem_of_good : ∀ (L : Nat) (s : List Char), s.length ≤ L →
    goodScan s = true → addIds (addIds s) = addIds s := by
  intro L
  induction L with
  | zero =>
    intro s hl _
    have hs : s = [] := List.length_eq_zero.mp (by omega)
    subst hs
    rfl
  | succ L ih =>
    intro s hl hgood
    cases s with
    | nil => rfl
    | cons c rest =>
      by_cases ho : isOpenTag (c :: rest) = true
      · cases hf : findClose ((c :: rest).drop 4) with
        | some p =>
          obtain ⟨content, after⟩ := p
          have hA := addIds_cons_open_some c rest content after ho hf
          have hG := goodScan_cons_open_some c rest content after ho hf
          rw [hgood] at hG
          obtain ⟨h1, h2⟩ := Bool.and_eq_true _ _ |>.mp hG.symm
          have hco : containsOpenTag content = false := by
            simpa using h1
          obtain ⟨x, s4, hx, hs, htag⟩ := isOpenTag_decomp _ ho
          have hlen_after : after.length ≤ L := by
            have hfl := findClose_len _ _ _ hf
            simp only [List.drop_succ_cons, List.length_drop] at hfl
            simp only [List.length_cons] at hl
            omega
          rw [htag] at hA
          rw [hA]
          rw [addIds_append_inert (headingElem ['h', x] content) (addIds after)
            (headingElem_inert x content (addIds after) hx hco)]
          rw [ih after hlen_after h2]
        | none =>
          have hid : addIds (c :: rest) = c :: rest := by
            have hcc := cc_false_of_open_no_close c rest ho hf
            unfold addIds
            exact addIdsF_id_of_cc _ _ hcc
          rw [hid, hid]
      · have ho' : isOpenTag (c :: rest) = false := by
          simpa using ho
        have hA := addIds_cons_notopen c rest ho'
        have hG := goodScan_cons_notopen c rest ho'
        rw [hgood] at hG
        rw [hA]
        have hoc : isOpenTag (c :: addIds rest) = false := by
          rw [isOpenTag_cons_congr c (addIds rest) rest (addIds_take3 rest 3 le_rfl)]
          exact ho'
        rw [addIds_cons_notopen c (addIds rest) hoc]
        rw [ih rest (by simp at hl; omega) hG.symm]

set_option maxRecDepth 4000 in
/-- C7 counterexample: the anchor-injection pass is NOT idempotent on every
fragment — for the nested-heading fragment `<h2><h2></h2></h2>` the first
pass anchors the outer heading and leaves a plain `<h2>` inside its content,
which the second pass then anchors as well, changing the output. -/
theorem C7_anchor_cex :
    addIds "<h2><h2></h2></h2>".data = "<h2 id=\"\"><h2></h2></h2>".data ∧
    addIds (addIds "<h2><h2></h2></h2>".data) =
      "<h2 id=\"\"><h2 id=\"\"></h2></h2>".data ∧
    addIds (addIds "<h2><h2></h2></h2>".data) ≠ addIds "<h2><h2></h2></h2>".data := by
  exact ⟨by decide, by decide, by decide⟩

/-- C7 amended: the anchor-injection pass is idempotent on every fragment in
which no matched heading's content itself contains a plain `<h2>`/`<h3>`
opening tag (`goodScan`); in particular already-anchored headings
(`<h2 id="...">`) are never re-matched.  Full idempotence on arbitrary
fragments fails — a heading nested inside another heading's matched content
is double-processed (see the counterexample). -/
theorem C7_amended (s : List Char) (h : goodScan s = true) :
    addIds (addIds s) = addIds s :=
  addIds_idem_of_good s.length s le_rfl h

set_option maxRecDepth 4000 in
theorem C7_amended_witness :
    goodScan "<h2>Intro</h2><p>x</p>".data = true ∧
    addIds (addIds "<h2>Intro</h2><p>x</p>".data) =
      addIds "<h2>Intro</h2><p>x</p>".data :=
  ⟨by decide, C7_amended "<h2>Intro</h2><p>x</p>".data (by decide)⟩
